import Mathlib

/-!
Verification of the journal-summary pipeline (`journal_summarizer_advanced_v2.py`)
against its natural-language specification.

The Python source is shallowly embedded: pure helpers become Lean functions;
exceptions become `Except PyExc`; the external collaborators (the RSS feed
library, the enrichment/LLM service and stdlib `json.loads` on the sliced
response text) are passed in as outcome-valued parameters, so that theorems
quantify over every possible behaviour of those collaborators.  Python
`float` values occurring in the data path (verdict scores, fractional verdict
indices) are modelled as exact rationals: the only float operations the source
performs on them are `int()` truncation and order comparison, both of which
are exact on the finite floats this models (IEEE `inf`/`nan` are outside the
model).  Strings are Unicode code-point sequences (`String` / `List Char`);
`str.lower` / `str.strip` are modelled per code point, which agrees with
CPython on the ASCII data the source manipulates.
-/

/-- Python exception values as far as the embedded code distinguishes them.
`retryError` is tenacity's `RetryError` wrapper, which carries the exception
of the final failed attempt. -/
inductive PyExc where
  | valueError (msg : String)
  | typeError (msg : String)
  | attributeError (msg : String)
  | indexError (msg : String)
  | connectionError (msg : String)
  | retryError (last : PyExc)
  | other (msg : String)
deriving DecidableEq

/-- One entry of the `JOURNALS` configuration table: display name, internal id,
feed address. -/
structure Journal where
  name : String
  id : String
  rss : String
deriving DecidableEq

/-- One article dictionary as built by `fetch_rss_articles`; `summary` is the
field added later by the `summarize` stage (absent = `""`). -/
structure Article where
  journal : String
  journal_id : String
  title : String
  link : String
  abstract : String
  pub_date : String
  summary : String := ""
deriving DecidableEq

/-- Placeholder article value used only as the (unreachable) default of
`List.getD` in statements about in-bounds indexing. -/
def defaultArticle : Article :=
  { journal := "", journal_id := "", title := "", link := "", abstract := "", pub_date := "" }

/-- Python `needle in hay` on strings: `needle` occurs as a contiguous
code-point substring of `hay`. -/
def strContains (hay needle : List Char) : Bool :=
  (List.range (hay.length + 1)).any (fun i => decide ((hay.drop i).take needle.length = needle))

/-- Per-code-point lower casing, modelling `str.lower()` on the ASCII keyword
data the filter compares against. -/
def lowerChars (cs : List Char) : List Char :=
  cs.map Char.toLower

/-- The fixed `EXCLUDE_KEYWORDS` list of the source, verbatim. -/
def EXCLUDE_KEYWORDS : List String :=
  ["news", "editorial", "perspective", "comment",
   "correspondence", "viewpoint", "opinion",
   "highlight", "policy", "correction", "erratum",
   "retraction", "protocol", "methods", "methodology",
   "in brief", "brief communication", "obituary",
   "news feature", "book review", "conference report",
   "in this issue", "research highlight", "research news",
   "technical report"]

/-- `is_core_research(entry)`: `text = (title + " " + abstract).lower()`;
keep the entry iff no exclusion keyword occurs in `text`. -/
def is_core_research (entry : Article) : Bool :=
  let text := lowerChars (entry.title ++ " " ++ entry.abstract).data
  !(EXCLUDE_KEYWORDS.any (fun kw => strContains text kw.data))

/-- A JSON value as decoded by `json.loads`: numbers decode to Python `int`
or `float` (kept disjoint here, floats as exact rationals). -/
inductive JsonVal where
  | jnull
  | jbool (b : Bool)
  | jint (n : Int)
  | jfloat (q : Rat)
  | jstr (s : String)
  | jarr (a : List JsonVal)
  | jobj (o : List (String × JsonVal))

/-- Python `dict.get(k, d)` on a decoded JSON object.  A later duplicate key
wins, matching how `json.loads` builds the dict. -/
def dictGetD (o : List (String × JsonVal)) (k : String) (d : JsonVal) : JsonVal :=
  o.foldl (fun acc p => if p.1 = k then p.2 else acc) d

/-- Whether a decoded JSON value is an object (a Python dict, the only values
on which `.get` does not raise `AttributeError`). -/
def jsonIsObj : JsonVal → Bool
  | .jobj _ => true
  | _ => false

/-- Python whitespace stripping (`str.strip()`), per code point. -/
def trimChars (cs : List Char) : List Char :=
  ((cs.dropWhile Char.isWhitespace).reverse.dropWhile Char.isWhitespace).reverse

/-- Valid tail of a Python digit group after its leading digit: digits, with
each underscore followed by a digit (`1_000` is valid, `1_`/`1__0` are not). -/
def digitTail : List Char → Bool
  | [] => true
  | '_' :: [] => false
  | '_' :: d :: r => d.isDigit && digitTail r
  | c :: r => c.isDigit && digitTail r

/-- Numeric value of a digit group, ignoring the (already validated)
underscores. -/
def digitsToNat (cs : List Char) : Nat :=
  (cs.filter (fun c => c != '_')).foldl (fun a c => a * 10 + (c.toNat - '0'.toNat)) 0

/-- A Python digit group: a leading digit followed by a valid tail. -/
def parseDigitGroup : List Char → Option Nat
  | [] => none
  | c :: r => if c.isDigit && digitTail r then some (digitsToNat (c :: r)) else none

/-- Optional leading sign of a numeric literal: returns (negative?, rest). -/
def stripSign : List Char → Bool × List Char
  | '+' :: r => (false, r)
  | '-' :: r => (true, r)
  | r => (false, r)

/-- Python `int(s)` on a string: strip whitespace, optional sign, ASCII digit
group; anything else raises `ValueError` (`none`). -/
def parseIntChars (cs : List Char) : Option Int :=
  let (neg, body) := stripSign (trimChars cs)
  (parseDigitGroup body).map (fun n => if neg then -(n : Int) else (n : Int))

/-- First-occurrence split of a list at a separator satisfying `p`. -/
def splitOnce (p : Char → Bool) (cs : List Char) : Option (List Char × List Char) :=
  match cs.findIdx? p with
  | none => none
  | some i => some (cs.take i, cs.drop (i + 1))

/-- Value of a Python float mantissa `intpart [. [fracpart]]` as a rational. -/
def parseMantissa (cs : List Char) : Option Rat :=
  match splitOnce (fun c => c = '.') cs with
  | none => (parseDigitGroup cs).map (fun n => (n : Rat))
  | some (ip, fp) =>
    match ip, fp with
    | [], [] => none
    | [], _ => (parseDigitGroup fp).map (fun f => (f : Rat) / ((10 : Rat) ^ fp.length))
    | _, [] => (parseDigitGroup ip).map (fun n => (n : Rat))
    | _, _ =>
      match parseDigitGroup ip, parseDigitGroup fp with
      | some n, some f => some ((n : Rat) + (f : Rat) / ((10 : Rat) ^ fp.length))
      | _, _ => none

/-- Python `float(s)` on a string: strip, optional sign, decimal mantissa with
optional exponent.  (The model restricts to finite decimal literals; the
`inf`/`nan` spellings are outside the model.) -/
def parseFloatChars (cs : List Char) : Option Rat :=
  let (neg, body) := stripSign (trimChars cs)
  let signed : Rat → Rat := fun q => if neg then -q else q
  match splitOnce (fun c => c = 'e' || c = 'E') body with
  | none => (parseMantissa body).map signed
  | some (m, e) =>
    let (eneg, ebody) := stripSign e
    match parseMantissa m, parseDigitGroup ebody with
    | some q, some ex =>
      some (signed (if eneg then q / ((10 : Rat) ^ ex) else q * ((10 : Rat) ^ ex)))
    | _, _ => none

/-- Integer truncation toward zero, the behaviour of Python `int()` applied
to a float. -/
def ratTrunc (q : Rat) : Int :=
  q.num.tdiv (q.den : Int)

/-- Python `int(x)` on a decoded JSON value: exact for ints and bools, floats
truncate toward zero, numeric strings parse; `None`, non-numeric strings and
containers raise (`none`). -/
def pyInt : JsonVal → Option Int
  | .jint n => some n
  | .jfloat q => some (ratTrunc q)
  | .jbool b => some (if b then 1 else 0)
  | .jstr s => parseIntChars s.data
  | _ => none

/-- Python `float(x)` on a decoded JSON value. -/
def pyFloat : JsonVal → Option Rat
  | .jint n => some (n : Rat)
  | .jfloat q => some q
  | .jbool b => some (if b then 1 else 0)
  | .jstr s => parseFloatChars s.data
  | _ => none

/-- Python `bool(x)` on a decoded JSON value (total, never raises). -/
def pyBool : JsonVal → Bool
  | .jnull => false
  | .jbool b => b
  | .jint n => n != 0
  | .jfloat q => q != 0
  | .jstr s => s != ""
  | .jarr a => !a.isEmpty
  | .jobj o => !o.isEmpty

/-- One validated verdict of the selection stage: the dict
`{"idx": idx, "score": score, "keep": keep}` that the source appends to
`scored`. -/
structure Scored where
  idx : Nat
  score : Rat
  keep : Bool
deriving DecidableEq

/-- One iteration of the verdict-parsing loop of `select_valuable_with_llm`:
`idx = int(item.get("id")); score = float(item.get("score", 0));
keep = bool(item.get("keep", True))`, appended only when
`0 <= idx < len(articles)`.  `ValueError`/`TypeError` from the coercions is
caught (`ok none` — the entry is skipped); `.get` on a non-dict raises
`AttributeError`, which the per-entry handler does not catch. -/
def parseVerdict (nArticles : Nat) : JsonVal → Except PyExc (Option Scored)
  | .jobj o =>
    match pyInt (dictGetD o "id" .jnull) with
    | none => .ok none
    | some idx =>
      match pyFloat (dictGetD o "score" (.jint 0)) with
      | none => .ok none
      | some score =>
        let keep := pyBool (dictGetD o "keep" (.jbool true))
        if 0 ≤ idx ∧ idx < (nArticles : Int) then
          .ok (some { idx := idx.toNat, score := score, keep := keep })
        else
          .ok none
  | _ => .error (.attributeError "get")

/-- The `for item in data` verdict loop: skipped entries contribute nothing;
an uncaught exception aborts the whole loop. -/
def parseItems (nArticles : Nat) : List JsonVal → Except PyExc (List Scored)
  | [] => .ok []
  | item :: rest =>
    match parseVerdict nArticles item with
    | .error e => .error e
    | .ok v =>
      match parseItems nArticles rest with
      | .error e => .error e
      | .ok l => .ok (v.toList ++ l)

/-- Insertion step of a stable descending sort by `score`: the new element
goes after every earlier element with a strictly greater score and before the
first element whose score is not greater (so equal scores keep their original
relative order). -/
def insertByScore (v : Scored) : List Scored → List Scored
  | [] => [v]
  | w :: ws => if v.score < w.score then w :: insertByScore v ws else v :: w :: ws

/-- Stable descending sort by `score`, modelling
`kept.sort(key=lambda x: x["score"], reverse=True)` (CPython's sort is stable
and `reverse=True` preserves the original order of equal keys, so it is
extensionally this insertion sort). -/
def sortByScoreDesc : List Scored → List Scored
  | [] => []
  | v :: l => insertByScore v (sortByScoreDesc l)

/-- The comprehension `[articles[i] for i in selected_idx]`: `none` models an
`IndexError` (unreachable after index validation). -/
def lookupAll (articles : List Article) : List Nat → Option (List Article)
  | [] => some []
  | i :: is =>
    match articles[i]? with
    | none => none
    | some a =>
      match lookupAll articles is with
      | none => none
      | some rest => some (a :: rest)

/-- The selection-policy block of `select_valuable_with_llm`, applied to the
validated verdicts: `kept = [x for x in scored if x["keep"]]`; if `kept` is
empty fall back to the whole of `scored`; stable-sort by score descending;
look up the first `target_n` indices. -/
def selectFromScored (articles : List Article) (scored : List Scored) (target_n : Nat) :
    Option (List Article) :=
  let kept0 := scored.filter (fun x => x.keep)
  let kept := if kept0.isEmpty then scored else kept0
  let sorted := sortByScoreDesc kept
  let selected_idx := (sorted.take target_n).map (fun x => x.idx)
  lookupAll articles selected_idx

/-- Bracket slicing of the raw service response: `start = raw.find("[")`,
`end = raw.rfind("]")`; `none` iff either is `-1` (the `ValueError` branch);
otherwise the slice `raw[start:end+1]` (which Python produces even when
`end < start`). -/
def bracketSlice (raw : List Char) : Option (List Char) :=
  match raw.findIdx? (fun c => c = '['), (raw.reverse).findIdx? (fun c => c = ']') with
  | some s, some k => some ((raw.drop s).take (raw.length - 1 - k + 1 - s))
  | _, _ => none

/-- `select_valuable_with_llm(journal_name, articles, target_n)`.
External behaviour is passed in: `clientp` is whether the module-level
`client` is configured, `llmCall` is the outcome of the chat-completion call
(its content, stripped, or the exception it raised) and `jsonLoads` is
`json.loads` on the sliced text (which, when it succeeds on a `[...]`-
delimited slice, yields a list).  Every exception inside the `try` body —
service error, missing brackets, decode error, an uncaught error from the
verdict loop, an `IndexError` from the final lookup — is caught by the
`except Exception` handler, which returns `articles[:target_n]`. -/
def select_valuable_with_llm (clientp : Bool)
    (jsonLoads : String → Except PyExc (List JsonVal))
    (llmCall : Except PyExc String)
    (journal_name : String) (articles : List Article) (target_n : Nat) : List Article :=
  if !clientp || articles.isEmpty then articles.take target_n
  else
    match llmCall with
    | .error _ => articles.take target_n
    | .ok raw =>
      match bracketSlice (trimChars raw.data) with
      | none => articles.take target_n
      | some json_text =>
        match jsonLoads (String.mk json_text) with
        | .error _ => articles.take target_n
        | .ok data =>
          match parseItems articles.length data with
          | .error _ => articles.take target_n
          | .ok scored =>
            match selectFromScored articles scored target_n with
            | none => articles.take target_n
            | some selected => selected

/-- Default of the `TARGET_ARTICLES_PER_JOURNAL` configuration constant
(overridable via the process environment in the source). -/
def TARGET_ARTICLES_PER_JOURNAL : Nat := 15

/-- Default of the `MAX_RETRIES` configuration constant. -/
def MAX_RETRIES : Nat := 3

/-- The fixed text `summarize` returns when no API key is configured
(`client is None`). -/
def noKeyText (title journal : String) : String :=
  "核心：尚未配置 DEEPSEEK_API_KEY，暂无法生成自动摘要。\n- 要点1：标题为「" ++
    (title ++ ("」，期刊：" ++ (journal ++ "。\n- 要点2：请点击下方原文链接查看详细内容。\n")))

/-- The fixed text `summarize` returns when the service call raises. -/
def failText (title : String) : String :=
  "核心：自动生成摘要失败，请参考原文标题与摘要理解内容。\n- 要点1：标题为「" ++
    (title ++ "」。\n- 要点2：可点击下方原文链接查看详细研究。\n")

/-- `summarize(title, abstract, journal)`: without a configured client it
returns the no-key placeholder; otherwise it returns the stripped service
response, or the failure placeholder if the call raised.  (The empty-abstract
substitution in the source only alters the prompt sent to the service, which
is part of the quantified `llmCall` outcome here.) -/
def summarize (clientp : Bool) (llmCall : Except PyExc String)
    (title abstract journal : String) : String :=
  if !clientp then noKeyText title journal
  else
    match llmCall with
    | .ok content => String.mk (trimChars content.data)
    | .error _ => failText title

/-- Outcomes of the four per-journal stages as seen by `process_journal`:
each stage is an arbitrary function that either returns a value or raises.
This expresses the orchestrator contract — `process_journal` must contain
whatever exception any stage propagates to it. -/
structure StageEnv where
  fetch : Journal → Except PyExc (List Article)
  select : String → List Article → Nat → Except PyExc (List Article)
  summarizeOf : String → String → String → Except PyExc String
  trendsOf : String → List Article → Except PyExc String

/-- The `art["summary"] = summarize(...)` loop of `process_journal`, which
enriches each selected article in order and propagates any exception. -/
def summarizeEach (env : StageEnv) : List Article → Except PyExc (List Article)
  | [] => .ok []
  | a :: rest =>
    match env.summarizeOf a.title a.abstract a.journal with
    | .error e => .error e
    | .ok s =>
      match summarizeEach env rest with
      | .error e => .error e
      | .ok l => .ok ({ a with summary := s } :: l)

/-- The body of `process_journal` up to its `except` clause: fetch, keyword
filter (early empty return), LLM selection, per-article summaries, and the
trend synthesis guarded by `if valuable:`. -/
def process_journal_body (env : StageEnv) (j : Journal) :
    Except PyExc (Journal × List Article × String) :=
  match env.fetch j with
  | .error e => .error e
  | .ok items0 =>
    let items := items0.filter is_core_research
    if items.isEmpty then .ok (j, [], "")
    else
      match env.select j.name items TARGET_ARTICLES_PER_JOURNAL with
      | .error e => .error e
      | .ok valuable =>
        match summarizeEach env valuable with
        | .error e => .error e
        | .ok enriched =>
          if enriched.isEmpty then .ok (j, enriched, "")
          else
            match env.trendsOf j.name enriched with
            | .error e => .error e
            | .ok t => .ok (j, enriched, t)

/-- `process_journal(journal)`: the whole body runs under
`try: ... except Exception:`, and any exception is converted into the empty
result `(journal, [], "")`. -/
def process_journal (env : StageEnv) (j : Journal) : Journal × List Article × String :=
  match process_journal_body env j with
  | .ok r => r
  | .error _ => (j, [], "")

/-- The result-collection loop of `main`: extend `all_articles` with each
journal's items and record its trend text under its display name only when
non-empty.  (`as_completed` yields tasks in a nondeterministic order; the
fold is taken in list order, which the spec declares irrelevant — the claims
proved below only concern which items the merge contains.) -/
def collectStep (env : StageEnv) (acc : List Article × List (String × String)) (j : Journal) :
    List Article × List (String × String) :=
  let r := process_journal env j
  (acc.1 ++ r.2.1, if r.2.2 ≠ "" then acc.2 ++ [(r.1.name, r.2.2)] else acc.2)

/-- Fold of `collectStep` over the configured journals, starting from the
empty accumulator, as `main` does. -/
def main_collect (env : StageEnv) (journals : List Journal) :
    List Article × List (String × String) :=
  journals.foldl (collectStep env) ([], [])

/-- Attempt loop of tenacity's `retry` with `stop=stop_after_attempt`:
`fuel` is the number of retries still allowed after the current attempt. -/
def tenacityRun {α : Type} (op : Nat → Except PyExc α) (attempt : Nat) :
    Nat → Except PyExc α
  | 0 =>
    match op attempt with
    | .ok a => .ok a
    | .error e => .error (.retryError e)
  | fuel + 1 =>
    match op attempt with
    | .ok a => .ok a
    | .error _ => tenacityRun op (attempt + 1) fuel

/-- The tenacity decorator `@retry(stop=stop_after_attempt(maxAttempts), ...)`
as used on `fetch_rss_articles`, `select_valuable_with_llm`, `summarize` and
`summarize_journal_trends`: run up to `maxAttempts` total attempts (numbered
from 1); on exhaustion it raises — with the library's default
`reraise=False` — a `RetryError` wrapping the last attempt's exception, not
that exception itself.  The backoff sleeps do not affect the returned value
and are not modelled. -/
def tenacityCall {α : Type} (maxAttempts : Nat) (op : Nat → Except PyExc α) :
    Except PyExc α :=
  tenacityRun op 1 (maxAttempts - 1)

/-- The selection policy's kept set as the spec words it: the verdicts with
`keep=true`, or — when no verdict has `keep=true` — the full parsed set. -/
def specKept (scored : List Scored) : List Scored :=
  if scored.any (fun v => v.keep) then scored.filter (fun v => v.keep) else scored

/-- Concrete article used in witnesses and counterexamples. -/
def artA : Article :=
  { journal := "J", journal_id := "j", title := "Alpha study", link := "la",
    abstract := "", pub_date := "2026-01-01" }

/-- Concrete article used in witnesses and counterexamples. -/
def artB : Article :=
  { journal := "J", journal_id := "j", title := "Beta study", link := "lb",
    abstract := "", pub_date := "2026-01-02" }

/-- Concrete article used in witnesses and counterexamples. -/
def artC : Article :=
  { journal := "J", journal_id := "j", title := "Gamma study", link := "lc",
    abstract := "", pub_date := "2026-01-03" }

/-- The rational 19/10, i.e. the float `1.9`, given in normal form so that it
evaluates inside the kernel. -/
def q19 : Rat := ⟨19, 10, by decide, by decide⟩

/-- Service verdicts in which two well-formed entries carry the same index. -/
def data10 : List JsonVal :=
  [.jobj [("id", .jint 1), ("score", .jint 5), ("keep", .jbool true)],
   .jobj [("id", .jint 1), ("score", .jint 4), ("keep", .jbool true)]]

/-- Service verdicts containing a single entry whose index is the float 1.9. -/
def dataF : List JsonVal :=
  [.jobj [("id", .jfloat q19), ("score", .jint 8), ("keep", .jbool true)]]

/-- Service verdicts containing one well-formed entry followed by an entry
that is not a JSON object. -/
def dataG : List JsonVal :=
  [.jobj [("id", .jint 0), ("score", .jint 9), ("keep", .jbool true)], .jint 7]

/-- Concrete validated-verdict list used by the selection-policy witness. -/
def sc3 : List Scored :=
  [{ idx := 0, score := Rat.ofInt 3, keep := true },
   { idx := 1, score := Rat.ofInt 7, keep := true }]

/-- Stage environment in which every journal except the one with id `"ok"`
fails at the fetch stage. -/
def envW : StageEnv :=
  { fetch := fun j => if j.id = "ok" then .ok [artA] else .error (.connectionError "unreachable"),
    select := fun _ arts n => .ok (arts.take n),
    summarizeOf := fun t _ _ => .ok ("S" ++ t),
    trendsOf := fun _ _ => .ok "trend" }

/-- Journal whose fetch succeeds under `envW`. -/
def jGood : Journal := { name := "Good", id := "ok", rss := "r1" }

/-- Journal whose fetch raises under `envW`. -/
def jBad : Journal := { name := "Bad", id := "bad", rss := "r2" }

/-- Decidable equality of `Except` results, used to evaluate concrete runs
inside the kernel. -/
instance {e a : Type} [DecidableEq e] [DecidableEq a] : DecidableEq (Except e a)
  | .error x, .error y =>
    if h : x = y then .isTrue (by rw [h]) else .isFalse (fun hc => h (Except.error.inj hc))
  | .error _, .ok _ => .isFalse (fun hc => Except.noConfusion hc)
  | .ok _, .error _ => .isFalse (fun hc => Except.noConfusion hc)
  | .ok x, .ok y =>
    if h : x = y then .isTrue (by rw [h]) else .isFalse (fun hc => h (Except.ok.inj hc))

/-- Substring containment characterized by a three-way decomposition. -/
theorem strContains_iff (hay needle : List Char) :
    strContains hay needle = true ↔ ∃ pre post, hay = pre ++ needle ++ post := by
  unfold strContains
  rw [List.any_eq_true]
  constructor
  · rintro ⟨i, hi, hdec⟩
    have h := of_decide_eq_true hdec
    refine ⟨hay.take i, (hay.drop i).drop needle.length, ?_⟩
    calc hay = hay.take i ++ hay.drop i := (List.take_append_drop i hay).symm
      _ = hay.take i ++ ((hay.drop i).take needle.length ++ (hay.drop i).drop needle.length) := by
          rw [List.take_append_drop needle.length (hay.drop i), List.take_append_drop i hay]
      _ = hay.take i ++ needle ++ (hay.drop i).drop needle.length := by
          rw [h, List.append_assoc]
  · rintro ⟨pre, post, rfl⟩
    refine ⟨pre.length, List.mem_range.mpr ?_, decide_eq_true ?_⟩
    · simp only [List.length_append]
      omega
    · rw [List.append_assoc, List.drop_left, List.take_left]

/-- The keyword filter rejects an item exactly when some exclusion keyword
occurs in the lowercased join of its title and abstract. -/
theorem is_core_research_eq_false_iff (e : Article) :
    is_core_research e = false ↔
      ∃ kw ∈ EXCLUDE_KEYWORDS, ∃ pre post,
        lowerChars (e.title ++ " " ++ e.abstract).data = pre ++ kw.data ++ post := by
  unfold is_core_research
  simp only [Bool.not_eq_false', List.any_eq_true, strContains_iff]

/-- C8: `is_core_research` returns false iff the lowercased concatenation of
title and abstract contains at least one keyword of the fixed exclusion list,
and returns true exactly when it contains none; as a Lean function of the
entry it is pure and deterministic. -/
theorem keyword_filter_characterization (e : Article) :
    (is_core_research e = false ↔
      ∃ kw ∈ EXCLUDE_KEYWORDS, ∃ pre post,
        lowerChars (e.title ++ " " ++ e.abstract).data = pre ++ kw.data ++ post) ∧
    (is_core_research e = true ↔
      ∀ kw ∈ EXCLUDE_KEYWORDS, ¬ ∃ pre post,
        lowerChars (e.title ++ " " ++ e.abstract).data = pre ++ kw.data ++ post) := by
  refine ⟨is_core_research_eq_false_iff e, ?_, ?_⟩
  · intro htrue kw hkw hex
    rcases hex with ⟨pre, post, hsplit⟩
    have hf : is_core_research e = false :=
      (is_core_research_eq_false_iff e).mpr ⟨kw, hkw, pre, post, hsplit⟩
    rw [htrue] at hf
    exact Bool.noConfusion hf
  · intro h
    by_contra hne
    have hfalse : is_core_research e = false := by
      cases hb : is_core_research e with
      | false => rfl
      | true => exact absurd hb hne
    rcases (is_core_research_eq_false_iff e).mp hfalse with ⟨kw, hkw, pre, post, hsplit⟩
    exact h kw hkw ⟨pre, post, hsplit⟩

/-- C9: keyword matching is plain substring containment on the lowercased
join `title ++ " " ++ abstract`: a keyword occurring anywhere in that string
— in particular inside a longer word — excludes the item, and a multi-word
keyword such as "in brief" can match across the title/abstract boundary
because the two fields are joined with exactly one space. -/
theorem keyword_substring_matching (t a : String) :
    (∀ pre post kw, kw ∈ EXCLUDE_KEYWORDS →
        lowerChars (t ++ " " ++ a).data = pre ++ kw.data ++ post →
        is_core_research { defaultArticle with title := t, abstract := a } = false) ∧
    ((∃ s, lowerChars t.data = s ++ "in".data) →
      (∃ s, lowerChars a.data = "brief".data ++ s) →
      is_core_research { defaultArticle with title := t, abstract := a } = false) := by
  constructor
  · intro pre post kw hkw hsplit
    exact (is_core_research_eq_false_iff _).mpr ⟨kw, hkw, pre, post, hsplit⟩
  · rintro ⟨s, ht⟩ ⟨s2, ha⟩
    apply (is_core_research_eq_false_iff _).mpr
    refine ⟨"in brief", by decide, s, s2, ?_⟩
    show lowerChars ((t ++ " " ++ a)).data = _
    rw [String.data_append, String.data_append]
    unfold lowerChars at ht ha ⊢
    rw [List.map_append, List.map_append, ht, ha]
    have hsp : (" ".data).map Char.toLower = [' '] := by decide
    have hib : ("in brief").data = "in".data ++ ([' '] ++ "brief".data) := by decide
    rw [hsp, hib]
    simp [List.append_assoc]

/-- Witness for the substring-matching theorem at concrete items: "news"
occurring inside "Newsletter", and "in brief" matching across the
title/abstract boundary of ("Advances in", "Brief overview"). -/
theorem keyword_substring_matching_witness :
    is_core_research { defaultArticle with title := "Newsletter", abstract := "" } = false ∧
    is_core_research { defaultArticle with title := "Advances in", abstract := "Brief overview" } = false :=
  ⟨(keyword_substring_matching "Newsletter" "").1 [] "letter ".data "news" (by decide) (by decide),
   (keyword_substring_matching "Advances in" "Brief overview").2
     ⟨"advances ".data, by decide⟩ ⟨" overview".data, by decide⟩⟩

/-- Membership is preserved by the insertion step of the sort. -/
theorem mem_insertByScore {x v : Scored} : ∀ {l : List Scored},
    x ∈ insertByScore v l ↔ x = v ∨ x ∈ l := by
  intro l
  induction l with
  | nil => simp [insertByScore]
  | cons w ws ih =>
    unfold insertByScore
    by_cases hc : v.score < w.score
    · simp only [if_pos hc, List.mem_cons, ih]
      tauto
    · simp only [if_neg hc, List.mem_cons]

/-- Inserting into a descending-sorted list keeps it descending-sorted. -/
theorem pairwise_insertByScore {v : Scored} : ∀ {l : List Scored},
    l.Pairwise (fun a b => b.score ≤ a.score) →
    (insertByScore v l).Pairwise (fun a b => b.score ≤ a.score) := by
  intro l
  induction l with
  | nil => intro _; simp [insertByScore]
  | cons w ws ih =>
    intro h
    rw [List.pairwise_cons] at h
    obtain ⟨hw, hws⟩ := h
    unfold insertByScore
    by_cases hc : v.score < w.score
    · rw [if_pos hc, List.pairwise_cons]
      refine ⟨?_, ih hws⟩
      intro x hx
      rcases mem_insertByScore.mp hx with rfl | hx'
      · exact le_of_lt hc
      · exact hw x hx'
    · rw [if_neg hc, List.pairwise_cons]
      refine ⟨?_, List.pairwise_cons.mpr ⟨hw, hws⟩⟩
      intro x hx
      rcases List.mem_cons.mp hx with rfl | hx'
      · exact not_lt.mp hc
      · exact le_trans (hw x hx') (not_lt.mp hc)

/-- The sort produces a list that is descending in `score`. -/
theorem sortByScoreDesc_pairwise : ∀ (l : List Scored),
    (sortByScoreDesc l).Pairwise (fun a b => b.score ≤ a.score) := by
  intro l
  induction l with
  | nil => simp [sortByScoreDesc]
  | cons v l ih => exact pairwise_insertByScore ih

/-- The sort neither adds nor removes elements (membership view). -/
theorem mem_sortByScoreDesc {x : Scored} : ∀ {l : List Scored},
    x ∈ sortByScoreDesc l ↔ x ∈ l := by
  intro l
  induction l with
  | nil => simp [sortByScoreDesc]
  | cons v l ih =>
    unfold sortByScoreDesc
    rw [mem_insertByScore, ih, List.mem_cons]

/-- Effect of one insertion on the sub-sequence of a fixed score. -/
theorem filter_insertByScore (v : Scored) (q : Rat) : ∀ (l : List Scored),
    (insertByScore v l).filter (fun w => decide (w.score = q)) =
      if v.score = q
      then v :: l.filter (fun w => decide (w.score = q))
      else l.filter (fun w => decide (w.score = q)) := by
  intro l
  induction l with
  | nil =>
    simp only [insertByScore, List.filter]
    by_cases hv : v.score = q <;> simp [hv]
  | cons w ws ih =>
    unfold insertByScore
    by_cases hc : v.score < w.score
    · rw [if_pos hc]
      by_cases hv : v.score = q
      · have hwq : ¬ (w.score = q) := by
          intro hw
          rw [hv] at hc
          rw [hw] at hc
          exact lt_irrefl q hc
        simp [List.filter_cons, hv, hwq, ih]
      · simp [List.filter_cons, hv, ih]
    · rw [if_neg hc]
      by_cases hv : v.score = q <;> simp [List.filter_cons, hv]

/-- Stability of the sort: for every score value, the sub-sequence of
verdicts carrying exactly that score is unchanged — equal scores keep their
original relative order. -/
theorem sortByScoreDesc_filter (q : Rat) : ∀ (l : List Scored),
    (sortByScoreDesc l).filter (fun w => decide (w.score = q)) =
      l.filter (fun w => decide (w.score = q)) := by
  intro l
  induction l with
  | nil => rfl
  | cons v l ih =>
    unfold sortByScoreDesc
    rw [filter_insertByScore]
    by_cases hv : v.score = q <;> simp [List.filter_cons, hv, ih]

/-- The spec-side kept set only contains parsed verdicts. -/
theorem specKept_subset (scored : List Scored) : specKept scored ⊆ scored := by
  unfold specKept
  split
  · exact fun x hx => (List.mem_filter.mp hx).1
  · exact fun _ h => h

/-- The code's empty-test on the filtered list agrees with the spec's
"if no verdict has keep=true" branch condition. -/
theorem keptBranch_eq (scored : List Scored) :
    (if (scored.filter (fun x => x.keep)).isEmpty then scored
     else scored.filter (fun x => x.keep)) = specKept scored := by
  unfold specKept
  cases ha : scored.any (fun v => v.keep) with
  | false =>
    have hnil : scored.filter (fun x => x.keep) = [] := by
      rw [List.filter_eq_nil_iff]
      intro x hx hkx
      have : scored.any (fun v => v.keep) = true := List.any_eq_true.mpr ⟨x, hx, hkx⟩
      rw [ha] at this
      exact Bool.noConfusion this
    simp [hnil]
  | true =>
    obtain ⟨x, hx, hkx⟩ := List.any_eq_true.mp ha
    have hne : scored.filter (fun v => v.keep) ≠ [] :=
      List.ne_nil_of_mem (List.mem_filter.mpr ⟨hx, hkx⟩)
    simp [List.isEmpty_iff, hne]

/-- The index-lookup comprehension never raises when every index is in
bounds, and returns the indexed articles in order. -/
theorem lookupAll_eq_map (articles : List Article) : ∀ (is : List Nat),
    (∀ i ∈ is, i < articles.length) →
    lookupAll articles is = some (is.map (fun i => articles.getD i defaultArticle)) := by
  intro is
  induction is with
  | nil => intro _; rfl
  | cons i is ih =>
    intro h
    have hi : i < articles.length := h i (List.mem_cons_self i is)
    have hrest := ih (fun j hj => h j (List.mem_cons_of_mem i hj))
    unfold lookupAll
    rw [List.getElem?_eq_getElem hi, hrest]
    simp [List.getD, List.getElem?_eq_getElem hi]

/-- A successful lookup returns one article per requested index. -/
theorem lookupAll_length {articles : List Article} : ∀ {is : List Nat} {sel : List Article},
    lookupAll articles is = some sel → sel.length = is.length := by
  intro is
  induction is with
  | nil =>
    intro sel h
    simp only [lookupAll, Option.some.injEq] at h
    rw [← h]
    rfl
  | cons i is ih =>
    intro sel h
    unfold lookupAll at h
    cases hget : articles[i]? with
    | none => rw [hget] at h; exact absurd h (by simp)
    | some a =>
      rw [hget] at h
      cases hrec : lookupAll articles is with
      | none => rw [hrec] at h; exact absurd h (by simp)
      | some rest =>
        rw [hrec] at h
        have hsel : sel = a :: rest := by
          simpa using h.symm
        rw [hsel]
        simp [ih hrec]

/-- C3: the selection policy keeps exactly the keep=true verdicts, falling
back to the full parsed set when none is kept (`specKept`); the kept set is
sorted by score descending (first conjunct) with ties preserving original
relative order (second conjunct, the filter characterization of a stable
sort); and the result is the candidates at the kept indices truncated to the
first `target_n`. -/
theorem selection_policy (articles : List Article) (scored : List Scored) (n : Nat)
    (hb : ∀ v ∈ scored, v.idx < articles.length) :
    (sortByScoreDesc (specKept scored)).Pairwise (fun a b => b.score ≤ a.score) ∧
    (∀ q : Rat, (sortByScoreDesc (specKept scored)).filter (fun v => decide (v.score = q)) =
        (specKept scored).filter (fun v => decide (v.score = q))) ∧
    selectFromScored articles scored n =
      some (((sortByScoreDesc (specKept scored)).take n).map
        (fun v => articles.getD v.idx defaultArticle)) := by
  refine ⟨sortByScoreDesc_pairwise _, fun q => sortByScoreDesc_filter q _, ?_⟩
  have hidx : ∀ i ∈ ((sortByScoreDesc (specKept scored)).take n).map (fun x => x.idx),
      i < articles.length := by
    intro i hi
    obtain ⟨v, hv, rfl⟩ := List.mem_map.mp hi
    have hv1 : v ∈ sortByScoreDesc (specKept scored) := List.take_subset n _ hv
    exact hb v (specKept_subset scored (mem_sortByScoreDesc.mp hv1))
  simp only [selectFromScored]
  rw [keptBranch_eq]
  rw [lookupAll_eq_map articles _ hidx, List.map_map]
  rfl

/-- Witness for the selection-policy theorem at a concrete verdict set: both
verdicts kept, sorted descending by score, looked up among two articles. -/
theorem selection_policy_witness :
    selectFromScored [artA, artB] sc3 2 = some [artB, artA] :=
  ((selection_policy [artA, artB] sc3 2 (by decide)).2.2).trans (by decide)

/-- A successful run of the selection-policy block returns at most
`target_n` articles. -/
theorem selectFromScored_some_length {articles : List Article} {scored : List Scored}
    {n : Nat} {sel : List Article} (h : selectFromScored articles scored n = some sel) :
    sel.length ≤ n := by
  simp only [selectFromScored] at h
  rw [lookupAll_length h]
  simp only [List.length_map, List.length_take]
  omega

/-- C6: for every candidate list, every target count and every behaviour of
the enrichment service and of the JSON decoder — including the
no-credential, service-error, missing-bracket, decode-failure,
verdict-loop-failure and lookup-failure fallback paths — `select` returns at
most `target_n` items. -/
theorem select_truncation_bound (clientp : Bool)
    (jsonLoads : String → Except PyExc (List JsonVal)) (llmCall : Except PyExc String)
    (journal_name : String) (articles : List Article) (n : Nat) :
    (select_valuable_with_llm clientp jsonLoads llmCall journal_name articles n).length ≤ n := by
  have htake : (articles.take n).length ≤ n := by
    simp only [List.length_take]
    omega
  unfold select_valuable_with_llm
  repeat' split
  all_goals try exact htake
  rename_i sel hsel
  exact selectFromScored_some_length hsel

/-- C7: with no configured credential, `select` returns exactly the first
`min n (number of candidates)` candidates, in their original order, as a
normal return value. -/
theorem select_unconfigured_fallback
    (jsonLoads : String → Except PyExc (List JsonVal)) (llmCall : Except PyExc String)
    (journal_name : String) (articles : List Article) (n : Nat) :
    select_valuable_with_llm false jsonLoads llmCall journal_name articles n
      = articles.take n ∧
    (select_valuable_with_llm false jsonLoads llmCall journal_name articles n).length
      = min n articles.length := by
  have h : select_valuable_with_llm false jsonLoads llmCall journal_name articles n
      = articles.take n := by
    simp [select_valuable_with_llm]
  refine ⟨h, ?_⟩
  rw [h]
  simp [List.length_take]

/-- C10: a service response whose two well-formed verdicts carry the same
in-range index makes `select` return the same candidate twice (here `artB`,
the candidate at index 1), while still returning at most `target_n` items;
indices are not deduplicated before candidate lookup. -/
theorem duplicate_indices_duplicate_items :
    select_valuable_with_llm true (fun _ => .ok data10) (.ok "[]") "J" [artA, artB] 15
      = [artB, artB] ∧
    [artB, artB].count artB = 2 ∧
    artA ≠ artB := by
  refine ⟨by decide, by decide, by decide⟩

/-- The fourth code point of the no-key placeholder is the '尚' of
"尚未配置", whatever the title and journal are. -/
theorem noKeyText_get3 (title journal : String) :
    (noKeyText title journal).data[3]? = some '尚' := by
  unfold noKeyText
  rw [String.data_append, List.getElem?_append_left (by decide)]
  decide

/-- The fourth code point of the failure placeholder is the '自' of
"自动生成", whatever the title is. -/
theorem failText_get3 (title : String) :
    (failText title).data[3]? = some '自' := by
  unfold failText
  rw [String.data_append, List.getElem?_append_left (by decide)]
  decide

/-- C5: `summarize` never leaves an item without text — with no credential
configured it returns the distinct "automatic summarization unavailable"
placeholder, and when the service call fails it returns the deterministic
failure placeholder, which is non-empty, embeds the title, and points the
reader at the original link ("原文链接"); the two placeholders are distinct
for every title and journal. -/
theorem summarize_totality (title abstract journal : String) (e : PyExc)
    (llm : Except PyExc String) :
    summarize false llm title abstract journal = noKeyText title journal ∧
    noKeyText title journal ≠ "" ∧
    summarize true (Except.error e) title abstract journal = failText title ∧
    failText title ≠ "" ∧
    (∃ pre post, (failText title).data = pre ++ title.data ++ post) ∧
    (∃ pre post, (failText title).data = pre ++ "原文链接".data ++ post) ∧
    noKeyText title journal ≠ failText title := by
  refine ⟨rfl, ?_, rfl, ?_, ?_, ?_, ?_⟩
  · intro h
    have h3 := noKeyText_get3 title journal
    rw [h] at h3
    exact absurd h3 (by decide)
  · intro h
    have h3 := failText_get3 title
    rw [h] at h3
    exact absurd h3 (by decide)
  · refine ⟨"核心：自动生成摘要失败，请参考原文标题与摘要理解内容。\n- 要点1：标题为「".data,
      "」。\n- 要点2：可点击下方原文链接查看详细研究。\n".data, ?_⟩
    simp [failText, String.data_append, List.append_assoc]
  · refine ⟨"核心：自动生成摘要失败，请参考原文标题与摘要理解内容。\n- 要点1：标题为「".data ++
      (title.data ++ "」。\n- 要点2：可点击下方".data), "查看详细研究。\n".data, ?_⟩
    have hc2 : ("」。\n- 要点2：可点击下方原文链接查看详细研究。\n").data
        = "」。\n- 要点2：可点击下方".data ++ ("原文链接".data ++ "查看详细研究。\n".data) := by
      decide
    simp [failText, String.data_append, hc2, List.append_assoc]
  · intro h
    have h1 := noKeyText_get3 title journal
    rw [h, failText_get3 title] at h1
    exact absurd h1 (by decide)

/-- Unrolling the article part of the collection fold: items accumulate by
concatenation, one block per journal. -/
theorem collect_fold_fst (env : StageEnv) : ∀ (js : List Journal)
    (acc : List Article × List (String × String)),
    (js.foldl (collectStep env) acc).1
      = acc.1 ++ (js.map (fun j => (process_journal env j).2.1)).flatten := by
  intro js
  induction js with
  | nil => intro acc; simp
  | cons j js ih =>
    intro acc
    rw [List.foldl_cons, ih]
    simp [collectStep, List.append_assoc]

/-- The merged article list of `main` is the per-journal result blocks in
journal order. -/
theorem main_collect_fst (env : StageEnv) (journals : List Journal) :
    (main_collect env journals).1
      = (journals.map (fun j => (process_journal env j).2.1)).flatten := by
  rw [main_collect, collect_fold_fst]
  rfl

/-- C1: when any stage of one journal's orchestration raises (its body
evaluates to an exception), `process_journal` returns the empty result for
that journal instead of propagating the exception, and the merged article
list over any run containing that journal is exactly the merge of the
remaining journals' results — every other journal's items are unaffected and
the run completes. -/
theorem process_journal_isolation (env : StageEnv) (k : Journal) (e : PyExc)
    (h : process_journal_body env k = Except.error e) (pre post : List Journal) :
    process_journal env k = (k, [], "") ∧
    (main_collect env (pre ++ k :: post)).1
      = (main_collect env pre).1 ++ (main_collect env post).1 := by
  have hk : process_journal env k = (k, [], "") := by
    rw [process_journal, h]
  refine ⟨hk, ?_⟩
  rw [main_collect_fst, main_collect_fst, main_collect_fst]
  simp [List.map_append, List.flatten_append, hk]

/-- Witness for the isolation theorem: under `envW`, `jBad`'s fetch stage
raises while `jGood` succeeds, and the merge over `[jGood, jBad]` equals the
merge over `[jGood]` alone. -/
theorem process_journal_isolation_witness :
    process_journal envW jBad = (jBad, [], "") ∧
    (main_collect envW ([jGood] ++ jBad :: [])).1
      = (main_collect envW [jGood]).1 ++ (main_collect envW []).1 :=
  process_journal_isolation envW jBad (.connectionError "unreachable") rfl [jGood] []

/-- When every attempt fails, the attempt loop errors with the wrapped error
of its last attempt (the current attempt number plus the remaining fuel). -/
theorem tenacityRun_all_fail {α : Type} (op : Nat → Except PyExc α) (errs : Nat → PyExc)
    (h : ∀ n, op n = .error (errs n)) : ∀ (fuel attempt : Nat),
    tenacityRun op attempt fuel = .error (.retryError (errs (attempt + fuel))) := by
  intro fuel
  induction fuel with
  | zero =>
    intro attempt
    simp [tenacityRun, h attempt]
  | succ fuel ih =>
    intro attempt
    simp only [tenacityRun, h attempt]
    rw [ih (attempt + 1)]
    have harith : attempt + 1 + fuel = attempt + (fuel + 1) := by omega
    rw [harith]

/-- C2 amended: when a wrapped operation fails on all of its `maxAttempts`
total attempts, the retry wrapper raises tenacity's `RetryError` wrapping the
final attempt's error — the last error is preserved as the wrapper's payload,
but the exception surfaced to the caller is the wrapper type, not the
original error itself. -/
theorem retry_wraps_last_error {α : Type} (m : Nat) (op : Nat → Except PyExc α)
    (errs : Nat → PyExc) (h : ∀ n, op n = .error (errs n)) :
    tenacityCall m op = .error (.retryError (errs (max m 1))) := by
  rw [tenacityCall, tenacityRun_all_fail op errs h (m - 1) 1]
  have harith : 1 + (m - 1) = max m 1 := by omega
  rw [harith]

/-- Witness for the wrapped-error theorem: two attempts, both failing with a
`TypeError`, surface `RetryError(TypeError)`. -/
theorem retry_wraps_last_error_witness :
    tenacityCall 2 (fun _ => (Except.error (PyExc.typeError "t") : Except PyExc Nat))
      = Except.error (PyExc.retryError (PyExc.typeError "t")) :=
  retry_wraps_last_error 2 (fun _ => Except.error (PyExc.typeError "t"))
    (fun _ => PyExc.typeError "t") (fun _ => rfl)

/-- C2 counterexample: with `maxAttempts = 3` and an operation that always
raises the same `ValueError`, the wrapper's surfaced result is not that
original error; it is a `RetryError` wrapping it. -/
theorem retry_masking_counterexample :
    tenacityCall 3 (fun _ => (Except.error (PyExc.valueError "boom") : Except PyExc Nat))
      ≠ Except.error (PyExc.valueError "boom") ∧
    tenacityCall 3 (fun _ => (Except.error (PyExc.valueError "boom") : Except PyExc Nat))
      = Except.error (PyExc.retryError (PyExc.valueError "boom")) :=
  ⟨by decide, by decide⟩

/-- A verdict entry that is a JSON object never raises out of the loop: each
of its coercions either succeeds or is caught by the per-entry handler. -/
theorem parseVerdict_obj_ok (n : Nat) (o : List (String × JsonVal)) :
    ∃ r, parseVerdict n (.jobj o) = .ok r := by
  rcases h1 : pyInt (dictGetD o "id" .jnull) with _ | idx
  · exact ⟨none, by simp [parseVerdict, h1]⟩
  · rcases h2 : pyFloat (dictGetD o "score" (.jint 0)) with _ | s
    · exact ⟨none, by simp [parseVerdict, h1, h2]⟩
    · by_cases hc : 0 ≤ idx ∧ idx < (n : Int)
      · exact ⟨_, by simp only [parseVerdict, h1, h2]; rw [if_pos hc]⟩
      · exact ⟨none, by simp only [parseVerdict, h1, h2]; rw [if_neg hc]⟩

/-- A verdict entry that is not a JSON object raises `AttributeError` at
`.get`, which the per-entry handler does not catch. -/
theorem parseVerdict_nonobj (n : Nat) (x : JsonVal) (hx : jsonIsObj x = false) :
    parseVerdict n x = .error (.attributeError "get") := by
  cases x with
  | jobj o => simp [jsonIsObj] at hx
  | jnull => rfl
  | jbool b => rfl
  | jint i => rfl
  | jfloat q => rfl
  | jstr s => rfl
  | jarr a => rfl

/-- C4 counterexample: a verdict whose index is the float 1.9 is not dropped
— `int()` truncates it to 1 and the score is attributed to the candidate at
index 1, so `select` returns `[artB]` instead of the empty kept set the
claim implies; and a verdict entry that is not a JSON object is fatal to its
whole batch: despite the batch also containing a well-formed keep=true
verdict for index 0, the response degrades to the original-order fallback. -/
theorem verdict_coercion_counterexample :
    select_valuable_with_llm true (fun _ => .ok dataF) (.ok "[]") "J" [artA, artB, artC] 3
      = [artB] ∧
    select_valuable_with_llm true (fun _ => .ok dataG) (.ok "[]") "J" [artA, artB, artC] 3
      = [artA, artB, artC] :=
  ⟨by decide, by decide⟩

/-- C4 amended: a verdict entry the loop skips — its dict is present but the
index or score coercion raised, or the coerced index is out of batch bounds —
is dropped without affecting the rest of the batch; however a float index is
coerced by `int()` truncation toward zero rather than dropped (attributing
the score to the candidate at the truncated index), and an entry that is not
a JSON object raises an uncaught `AttributeError` that is fatal to the whole
batch. -/
theorem verdict_validation_amended :
    (∀ (n : Nat) (pre post : List JsonVal) (x : JsonVal),
        parseVerdict n x = .ok none →
        parseItems n (pre ++ x :: post) = parseItems n (pre ++ post)) ∧
    (∀ (n : Nat) (o : List (String × JsonVal)) (q : Rat) (sc : Int) (kp : Bool),
        dictGetD o "id" .jnull = .jfloat q →
        dictGetD o "score" (.jint 0) = .jint sc →
        dictGetD o "keep" (.jbool true) = .jbool kp →
        0 ≤ ratTrunc q → ratTrunc q < (n : Int) →
        parseVerdict n (.jobj o)
          = .ok (some { idx := (ratTrunc q).toNat, score := (sc : Rat), keep := kp })) ∧
    (∀ (n : Nat) (o : List (String × JsonVal)) (i : Int),
        dictGetD o "id" .jnull = .jint i →
        (i < 0 ∨ (n : Int) ≤ i) →
        parseVerdict n (.jobj o) = .ok none) ∧
    (∀ (n : Nat) (pre : List JsonVal) (x : JsonVal) (post : List JsonVal),
        (∀ y ∈ pre, jsonIsObj y = true) → jsonIsObj x = false →
        parseItems n (pre ++ x :: post) = .error (.attributeError "get")) := by
  refine ⟨?_, ?_, ?_, ?_⟩
  · intro n pre post x hx
    induction pre with
    | nil =>
      cases h2 : parseItems n post with
      | error e => simp [parseItems, hx, h2]
      | ok l => simp [parseItems, hx, h2]
    | cons p pre ih =>
      cases hp : parseVerdict n p with
      | error e => simp [parseItems, hp]
      | ok v => simp [parseItems, hp, ih]
  · intro n o q sc kp hid hsc hkp h0 hn
    simp only [parseVerdict, hid, hsc, hkp, pyInt, pyFloat, pyBool]
    rw [if_pos ⟨h0, hn⟩]
  · intro n o i hid hrange
    simp only [parseVerdict, hid, pyInt]
    rcases hs : pyFloat (dictGetD o "score" (.jint 0)) with _ | s
    · rfl
    · have hneg : ¬ (0 ≤ i ∧ i < (n : Int)) := by
        rintro ⟨h1, h2⟩
        rcases hrange with h | h <;> omega
      simp [hneg]
  · intro n pre x post
    induction pre with
    | nil =>
      intro _ hx
      simp [parseItems, parseVerdict_nonobj n x hx]
    | cons p pre ih =>
      intro hpre hx
      have hp : jsonIsObj p = true := hpre p (List.mem_cons_self p pre)
      have hrec := ih (fun y hy => hpre y (List.mem_cons_of_mem p hy)) hx
      cases p with
      | jobj o =>
        obtain ⟨r, hr⟩ := parseVerdict_obj_ok n o
        simp [parseItems, hr, hrec]
      | jnull => simp [jsonIsObj] at hp
      | jbool b => simp [jsonIsObj] at hp
      | jint i => simp [jsonIsObj] at hp
      | jfloat q => simp [jsonIsObj] at hp
      | jstr s => simp [jsonIsObj] at hp
      | jarr a => simp [jsonIsObj] at hp

/-- Witness for the amended verdict-validation theorem at concrete entries:
a null-id object entry skipped with its batch intact, the float index 1.9
coerced to 1, the out-of-range integer index 5 dropped, and a non-object
entry aborting its batch. -/
theorem verdict_validation_amended_witness :
    (parseItems 3 ([] ++ JsonVal.jobj [("id", JsonVal.jnull)] :: []) = parseItems 3 ([] ++ [])) ∧
    (parseVerdict 3 (.jobj [("id", .jfloat q19), ("score", .jint 8), ("keep", .jbool true)])
      = .ok (some { idx := (ratTrunc q19).toNat, score := ((8 : Int) : Rat), keep := true })) ∧
    (parseVerdict 3 (.jobj [("id", .jint 5)]) = .ok none) ∧
    (parseItems 3 ([JsonVal.jobj [("id", JsonVal.jint 0)]] ++ JsonVal.jint 7 :: [])
      = .error (.attributeError "get")) :=
  ⟨verdict_validation_amended.1 3 [] [] (JsonVal.jobj [("id", JsonVal.jnull)]) rfl,
   verdict_validation_amended.2.1 3
     [("id", .jfloat q19), ("score", .jint 8), ("keep", .jbool true)] q19 8 true
     rfl rfl rfl (by decide) (by decide),
   verdict_validation_amended.2.2.1 3 [("id", .jint 5)] 5 rfl (Or.inr (by decide)),
   verdict_validation_amended.2.2.2 3 [JsonVal.jobj [("id", JsonVal.jint 0)]] (JsonVal.jint 7) []
     (by intro y hy; simp only [List.mem_singleton] at hy; subst hy; rfl) rfl⟩
